import Mathlib

/-!
Verification of the keyword co-occurrence network builder and analyzer of
`streamlit_app.py` (functions `parse_gpt_response`, `create_network_analysis`,
`analyze_network_metrics`).

Strings are modelled at the character-list level (`List Char`), so that every
operation of the Python source (`re.split`, substring containment via `in`,
`str.strip`, `str.rsplit`, `int(...)`) is an executable structural recursion.
Whitespace is modelled by the ASCII whitespace set, which is what both
Python's `\s` and `str.strip` use on ASCII text.
-/

/-- ASCII whitespace, as matched by Python's regex class and default strip. -/
def isPySpace (c : Char) : Bool :=
  c = ' ' || c = '\t' || c = '\n' || c = '\r' || c = '\x0b' || c = '\x0c'

/-- Sentence-terminating punctuation of the regex `[.!?]` in
`create_network_analysis` (line 158 of `streamlit_app.py`). -/
def isTerm (c : Char) : Bool :=
  c = '.' || c = '!' || c = '?'

/-- State machine for `re.split(r'[.!?]\s*', text)`: scan the text; a
terminator ends the current fragment and switches to a whitespace-skipping
state (the greedy `\s*` of the single match).  The Boolean argument is `true`
exactly while skipping the whitespace that follows a terminator. -/
def splitAux : List Char → List Char → Bool → List (List Char)
  | [], cur, _ => [cur.reverse]
  | c :: rest, cur, true =>
    if isPySpace c then splitAux rest cur true
    else if isTerm c then cur.reverse :: splitAux rest [] true
    else splitAux rest (c :: cur) false
  | c :: rest, cur, false =>
    if isTerm c then cur.reverse :: splitAux rest [] true
    else splitAux rest (c :: cur) false

/-- Model of `sentences = re.split(r'[.!?]\s*', text)` in `create_network_analysis`. -/
def splitSentences (text : String) : List String :=
  (splitAux text.data [] false).map fun cs => String.mk cs

/-- Boolean list-prefix test (model of the prefix step of Python's `in`). -/
def isPrefixL : List Char → List Char → Bool
  | [], _ => true
  | _ :: _, [] => false
  | a :: as, b :: bs => a = b && isPrefixL as bs

/-- Boolean substring containment: Python's `keyword in sentence`
(line 168 of `streamlit_app.py`). -/
def isSubstr (n : List Char) : List Char → Bool
  | [] => isPrefixL n []
  | c :: t => isPrefixL n (c :: t) || isSubstr n t

/-- The keywords of `keyword_list` found in a sentence, in list order:
`[keyword for keyword in keyword_list if keyword in sentence]`
(lines 166-169 of `streamlit_app.py`). -/
def foundKeywords (keywordList : List String) (sentence : String) : List String :=
  keywordList.filter fun k => isSubstr k.data sentence.data

/-- Model of `itertools.combinations(found_keywords, 2)`: all pairs of elements taken
at two distinct positions, left position first. -/
def combos2 : List α → List (α × α)
  | [] => []
  | x :: xs => (xs.map fun y => (x, y)) ++ combos2 xs

/-- Strict lexicographic comparison of character lists by code point: the
model of Python's `<` on strings. -/
def ltCharList : List Char → List Char → Bool
  | [], [] => false
  | [], _ :: _ => true
  | _ :: _, [] => false
  | a :: as, b :: bs => if a < b then true else if b < a then false else ltCharList as bs

/-- Strict lexicographic comparison of strings by code point. -/
def ltStr (a b : String) : Bool :=
  ltCharList a.data b.data

/-- Model of `tuple(sorted(combo))` for a two-element combination: Python's sort is
stable, so the pair is swapped exactly when the second component is smaller. -/
def sortPair (a b : String) : String × String :=
  if ltStr b a then (b, a) else (a, b)

/-- A key of the co-occurrence table: a canonicalized keyword pair. -/
abbrev Pair := String × String

/-- Insertion-ordered association list standing for a Python dict / Counter. -/
abbrev Assoc (α β : Type) := List (α × β)

/-- Model of `co_occurrence[sorted_combo] += 1` on a `Counter`: bump an existing key in
place, or append the key at the end with count 1. -/
def incr (k : Pair) : Assoc Pair Nat → Assoc Pair Nat
  | [] => [(k, 1)]
  | (k₀, v) :: rest => if k₀ = k then (k₀, v + 1) :: rest else (k₀, v) :: incr k rest

/-- The pair combinations contributed by one sentence
(lines 166-172 of `streamlit_app.py`). -/
def sentencePairs (keywordList : List String) (sentence : String) : List (String × String) :=
  combos2 (foundKeywords keywordList sentence)

/-- The body of the per-sentence loop: every combination of the found
keywords increments its canonicalized pair count. -/
def sentenceStep (keywordList : List String) (c : Assoc Pair Nat) (sentence : String) :
    Assoc Pair Nat :=
  (sentencePairs keywordList sentence).foldl (fun c p => incr (sortPair p.1 p.2) c) c

/-- The full co-occurrence `Counter` accumulated over all sentences
(lines 160-175 of `streamlit_app.py`). -/
def cooccurrence (text : String) (keywordList : List String) : Assoc Pair Nat :=
  (splitSentences text).foldl (sentenceStep keywordList) []

/-- Model of the dict comprehension of line 178 of `streamlit_app.py`: keep
exactly the pairs whose count reaches `min_cooccurrence`. -/
def filteredTable (text : String) (kws : Assoc String Int) (minCo : Nat) : Assoc Pair Nat :=
  (cooccurrence text (kws.map Prod.fst)).filter fun kv => minCo ≤ kv.2

/-- First-occurrence deduplication with an explicit seen-set, modelling the
node set collected from the surviving pair endpoints.  (The Python `set` has
no specified order; any fixed enumeration of the same member set is a
faithful model, and none of the verified properties depend on the order.) -/
def dedupFirstAux : List String → List String → List String
  | [], _ => []
  | x :: xs, seen =>
    if x ∈ seen then dedupFirstAux xs seen else x :: dedupFirstAux xs (x :: seen)

/-- First-occurrence deduplication of a list of node names. -/
def dedupFirst (l : List String) : List String :=
  dedupFirstAux l []

/-- The endpoint names of the filtered pairs, in table order
(lines 188-191 of `streamlit_app.py`). -/
def endpointsList (filtered : Assoc Pair Nat) : List String :=
  filtered.foldr (fun kv acc => kv.1.1 :: kv.1.2 :: acc) []

/-- Model of `keywords_dict.get(keyword, default)` on an insertion-ordered dict. -/
def lookupA : Assoc String Int → String → Option Int
  | [], _ => none
  | (k, v) :: r, key => if k = key then some v else lookupA r key

/-- The undirected weighted graph: nodes carry the keyword weight, edges carry
the co-occurrence count.  Edges are stored as canonicalized pairs, matching
the keys of the filtered table they are built from. -/
structure Graph where
  nodes : List (String × Int)
  edges : Assoc Pair Nat
deriving DecidableEq, Repr

/-- Graph construction of lines 184-199 of `streamlit_app.py`: nodes are the
deduplicated endpoints of the surviving pairs, each given
`keywords_dict.get(keyword, 1)` as weight; each surviving pair becomes an
edge weighted by its count. -/
def buildGraph (filtered : Assoc Pair Nat) (kws : Assoc String Int) : Graph :=
  { nodes := (dedupFirst (endpointsList filtered)).map fun k => (k, (lookupA kws k).getD 1)
    edges := filtered }

/-- Model of `create_network_analysis(text, keywords_dict, min_cooccurrence)`
(lines 152-204 of `streamlit_app.py`).  The Python `(None, None)` return is
`none`; the `(G, filtered_co_occurrence)` return is `some (G, filtered)`.
The source computes `filtered_co_occurrence` once and reuses it; here the
defining expression is repeated verbatim, which denotes the same value. -/
def create_network_analysis (text : String) (kws : Assoc String Int) (minCo : Nat) :
    Option (Graph × Assoc Pair Nat) :=
  if kws.length < 2 then none
  else if (filteredTable text kws minCo).isEmpty then none
  else if (buildGraph (filteredTable text kws minCo) kws).nodes.length < 2 then none
  else some (buildGraph (filteredTable text kws minCo) kws, filteredTable text kws minCo)

/-!
Network metrics (`analyze_network_metrics`, lines 287-333 of
`streamlit_app.py`).  The connectivity and density routines are library calls
in the source (`nx.is_connected`, `nx.density`,
`nx.number_connected_components`); they are modelled here by the standard
graph-theoretic definitions the spec states in its section 4.4: density of an
undirected simple graph is `2·edges / (nodes·(nodes−1))`, and the component
count is obtained by merging node classes along edges.  The three centrality
computations sit inside a `try`/`except` in the source; they are likewise
library calls, modelled as a parameter that either returns the three
centrality dictionaries or raises.
-/

/-- Merge step for connected components: all classes touching either endpoint
of the edge are fused into one. -/
def compsStep (comps : List (List String)) (e : Pair × Nat) : List (List String) :=
  ((comps.filter fun c => c.contains e.1.1 || c.contains e.1.2).foldr (· ++ ·) []) ::
    comps.filter fun c => !(c.contains e.1.1 || c.contains e.1.2)

/-- Connected components of the graph: start from singleton classes of the
nodes and merge along every edge. -/
def componentsOf (G : Graph) : List (List String) :=
  G.edges.foldl compsStep (G.nodes.map fun n => [n.1])

/-- Model of `nx.number_connected_components(G)`. -/
def ncomponents (G : Graph) : Nat :=
  (componentsOf G).length

/-- Model of `nx.is_connected(G)` for a nonempty graph: exactly one component. -/
def isConnectedG (G : Graph) : Bool :=
  ncomponents G == 1

/-- Model of `nx.density(G)` for an undirected graph, as an exact rational. -/
def densityQ (G : Graph) : ℚ :=
  (2 * G.edges.length : ℚ) / ((G.nodes.length : ℚ) * ((G.nodes.length : ℚ) - 1))

/-- The `metrics['density']` value: a number when the graph is connected,
otherwise the "not computable" message string of line 303. -/
inductive DensityVal where
  | val (q : ℚ)
  | notConnected
deriving DecidableEq, Repr

/-- A `most_*` metrics entry: a node name, the `"계산 불가"` placeholder of the
`except` branch, or the `"N/A"` placeholder for an empty centrality dict. -/
inductive CentralNode where
  | node (s : String)
  | notComputable
  | na
deriving DecidableEq, Repr

/-- The three centrality dictionaries returned by the library calls of
lines 308-310; values are modelled as exact rationals. -/
structure CentData where
  deg : Assoc String ℚ
  betw : Assoc String ℚ
  clos : Assoc String ℚ

/-- The metrics dict built by `analyze_network_metrics`. -/
structure Metrics where
  nodes : Nat
  edges : Nat
  density : DensityVal
  components : Nat
  most_connected : CentralNode
  most_between : CentralNode
  most_close : CentralNode
  degree_top5 : Assoc String ℚ
  betweenness_top5 : Assoc String ℚ
  closeness_top5 : Assoc String ℚ
deriving DecidableEq, Repr

/-- Model of `max(d, key=d.get)` on a nonempty dict: the first key attaining the
maximal value, since Python's `max` replaces the current best only on a
strictly greater key value. -/
def argmaxFirst (k : String) (v : ℚ) (rest : Assoc String ℚ) : String :=
  (rest.foldl (fun best kv => if best.2 < kv.2 then kv else best) (k, v)).1

/-- Model of `max(d, key=d.get) if d else "N/A"`. -/
def argmaxNode : Assoc String ℚ → CentralNode
  | [] => CentralNode.na
  | (k, v) :: rest => CentralNode.node (argmaxFirst k v rest)

/-- Stable insertion into a list sorted by decreasing value: the inserted
entry goes after every entry with a value `≥` its own. -/
def insDesc (x : String × ℚ) : Assoc String ℚ → Assoc String ℚ
  | [] => [x]
  | y :: ys => if y.2 < x.2 then x :: y :: ys else y :: insDesc x ys

/-- Stable sort by decreasing value, as `sorted(d.items(), key=value, reverse=True)`. -/
def sortDesc : Assoc String ℚ → Assoc String ℚ
  | [] => []
  | x :: xs => insDesc x (sortDesc xs)

/-- Model of `dict(sorted(d.items(), key=lambda x: x[1], reverse=True)[:5])`. -/
def top5 (d : Assoc String ℚ) : Assoc String ℚ :=
  (sortDesc d).take 5

/-- Model of `analyze_network_metrics(G, keywords_dict)` (lines 287-333 of
`streamlit_app.py`).  `none` input models the `G is None` case and `none`
output models the empty metrics dict `{}`.  `cent` stands for the three
centrality library calls of the `try` block: `Except.error` is a raised
exception, answered by the placeholder assignments of the `except` branch. -/
def analyze_network_metrics (G? : Option Graph)
    (cent : Graph → Except String CentData) : Option Metrics :=
  match G? with
  | none => none
  | some G =>
    if G.nodes.length < 2 then none
    else
      let dens := if isConnectedG G then DensityVal.val (densityQ G)
                  else DensityVal.notConnected
      let comps := if isConnectedG G then 1 else ncomponents G
      match cent G with
      | Except.ok cd =>
        some { nodes := G.nodes.length, edges := G.edges.length
               density := dens, components := comps
               most_connected := argmaxNode cd.deg
               most_between := argmaxNode cd.betw
               most_close := argmaxNode cd.clos
               degree_top5 := top5 cd.deg
               betweenness_top5 := top5 cd.betw
               closeness_top5 := top5 cd.clos }
      | Except.error _ =>
        some { nodes := G.nodes.length, edges := G.edges.length
               density := dens, components := comps
               most_connected := CentralNode.notComputable
               most_between := CentralNode.notComputable
               most_close := CentralNode.notComputable
               degree_top5 := [], betweenness_top5 := [], closeness_top5 := [] }

/-!
The GPT-response parser (`parse_gpt_response`, lines 109-142 of
`streamlit_app.py`), modelled over character lists.
-/

/-- Model of `str.strip()`: drop ASCII whitespace from both ends. -/
def pyStrip (cs : List Char) : List Char :=
  ((cs.dropWhile isPySpace).reverse.dropWhile isPySpace).reverse

/-- Model of `response_text.split(',')`: split at every comma. -/
def splitComma : List Char → List (List Char)
  | [] => [[]]
  | c :: rest =>
    if c = ',' then [] :: splitComma rest
    else match splitComma rest with
      | [] => [[c]]
      | f :: fs => (c :: f) :: fs

/-- Model of `item.rsplit(' ', 1)`: split at the last space character, `none` when the
item contains no space (Python then returns the one-element list `[item]`). -/
def rsplit1 : List Char → Option (List Char × List Char)
  | [] => none
  | c :: rest =>
    match rsplit1 rest with
    | some (pre, suf) => some (c :: pre, suf)
    | none => if c = ' ' then some ([], rest) else none

/-- Digit-sequence value for `int(...)`, allowing the single underscores
Python permits between digits. -/
def parseDigitsAux : Nat → List Char → Option Nat
  | acc, [] => some acc
  | acc, c :: rest =>
    if c.isDigit then parseDigitsAux (10 * acc + (c.toNat - 48)) rest
    else if c = '_' then
      match rest with
      | d :: _ => if d.isDigit then parseDigitsAux acc rest else none
      | [] => none
    else none

/-- A nonempty digit sequence, underscores only between digits. -/
def parseDigits : List Char → Option Nat
  | [] => none
  | c :: rest => if c.isDigit then parseDigitsAux (c.toNat - 48) rest else none

/-- Python's `int(str)` on ASCII text: surrounding whitespace is ignored, an
optional single sign precedes the digits; `none` models the `ValueError`. -/
def pyIntOf (cs₀ : List Char) : Option Int :=
  match pyStrip cs₀ with
  | '+' :: rest => (parseDigits rest).map Int.ofNat
  | '-' :: rest => (parseDigits rest).map fun n => -(n : Int)
  | cs => (parseDigits cs).map Int.ofNat

/-- Python dict assignment `d[k] = v`: overwrite in place, else append. -/
def dictSet (k : String) (v : Int) : Assoc String Int → Assoc String Int
  | [] => [(k, v)]
  | (k₀, v₀) :: rest => if k₀ = k then (k, v) :: rest else (k₀, v₀) :: dictSet k v rest

/-- The per-item body of the loop of `parse_gpt_response`
(lines 117-136 of `streamlit_app.py`). -/
def parseItemStep (d : Assoc String Int) (item₀ : List Char) : Assoc String Int :=
  let item := pyStrip item₀
  if item = [] then d
  else
    match rsplit1 item with
    | some (pre, suf) =>
      match pyIntOf (pyStrip suf) with
      | some w =>
        if 1 ≤ w ∧ w ≤ 10 then dictSet (String.mk (pyStrip pre)) w d
        else dictSet (String.mk (pyStrip pre)) 5 d
      | none => dictSet (String.mk item) 5 d
    | none => dictSet (String.mk item) 5 d

/-- Model of `parse_gpt_response(response_text)` (lines 109-142 of `streamlit_app.py`).
The function is total: the outer `try` of the source can only ever take its
happy path, because the only raising operation, `int(...)`, is guarded by the
inner `except ValueError`. -/
def parse_gpt_response (response : String) : Assoc String Int :=
  (splitComma response.data).foldl parseItemStep []

/-!
Spec-side definitions, used only to compare the source behaviour against the
claims' wording.
-/

/-- Modelled from the spec: the claimed splitter, which splits on *one or
more* terminators `.`, `!`, `?`, each optionally followed by whitespace
(the regex `([.!?]\s*)+`).  While inside such a run (Boolean state `true`),
both whitespace and further terminators extend the match without emitting a
fragment. -/
def splitAuxSpec : List Char → List Char → Bool → List (List Char)
  | [], cur, _ => [cur.reverse]
  | c :: rest, cur, true =>
    if isPySpace c || isTerm c then splitAuxSpec rest cur true
    else splitAuxSpec rest [c] false
  | c :: rest, cur, false =>
    if isTerm c then cur.reverse :: splitAuxSpec rest [] true
    else splitAuxSpec rest (c :: cur) false

/-- Modelled from the spec: the sentence splitter as claim C7 words it,
collapsing each maximal run of terminators-with-trailing-whitespace into a
single split point. -/
def splitSentencesSpec (text : String) : List String :=
  (splitAuxSpec text.data [] false).map fun cs => String.mk cs

/-- Modelled from the spec: the per-item parsing rule as claim C8 words it —
the item is split at its last space into keyword and trailing token, and the
*keyword part* gets the default weight 5 whenever the trailing token is
missing or is not an integer in `[1,10]`. -/
def parseItemStepClaim (d : Assoc String Int) (item₀ : List Char) : Assoc String Int :=
  let item := pyStrip item₀
  if item = [] then d
  else
    match rsplit1 item with
    | some (pre, suf) =>
      match pyIntOf (pyStrip suf) with
      | some w =>
        if 1 ≤ w ∧ w ≤ 10 then dictSet (String.mk (pyStrip pre)) w d
        else dictSet (String.mk (pyStrip pre)) 5 d
      | none => dictSet (String.mk (pyStrip pre)) 5 d
    | none => dictSet (String.mk item) 5 d

/-- Modelled from the spec: `parse_gpt_response` as claim C8 words it. -/
def parse_gpt_responseClaim (response : String) : Assoc String Int :=
  (splitComma response.data).foldl parseItemStepClaim []

/-- The keyword reached by one parsed item under the behaviour the source
actually implements: the prefix before the last space when the trailing token
parses as an integer, and otherwise the whole item. -/
def itemKey (item : List Char) : String :=
  match rsplit1 item with
  | none => String.mk item
  | some (pre, suf) =>
    if (pyIntOf (pyStrip suf)).isSome then String.mk (pyStrip pre) else String.mk item

/-- The weight reached by one parsed item under the behaviour the source
actually implements: the trailing integer when it lies in `[1,10]`, and the
default 5 otherwise. -/
def itemWeight (item : List Char) : Int :=
  match rsplit1 item with
  | none => 5
  | some (_, suf) =>
    match pyIntOf (pyStrip suf) with
    | some w => if 1 ≤ w ∧ w ≤ 10 then w else 5
    | none => 5

/-- Number of edges of a `create_network_analysis` result; a "no graph"
result has none. -/
def edgeCount : Option (Graph × Assoc Pair Nat) → Nat
  | none => 0
  | some (G, _) => G.edges.length

/-- Scenario A input text. -/
def textA : String := "AI and ML are fields. AI uses data. ML uses models."

/-- Scenario A keyword set. -/
def kwA : Assoc String Int := [("AI", 8), ("ML", 7), ("data", 5), ("models", 4)]

/-- Scenario A expected co-occurrence table. -/
def coA : Assoc Pair Nat := [(("AI", "ML"), 1), (("AI", "data"), 1), (("ML", "models"), 1)]

/-- Scenario A expected graph. -/
def GA : Graph :=
  { nodes := [("AI", 8), ("ML", 7), ("data", 5), ("models", 4)], edges := coA }

/-- C1: on the Scenario A text with keywords AI:8, ML:7, data:5, models:4 and
threshold 1, `create_network_analysis` yields the co-occurrence table
(AI,ML):1, (AI,data):1, (ML,models):1 and a graph with 4 nodes and 3 edges,
and `analyze_network_metrics` on that graph reports 1 connected component and
density 1/2, whatever the centrality library calls return. -/
theorem claim_C1 :
    ∃ G co,
      create_network_analysis textA kwA 1 = some (G, co) ∧
      co = [(("AI", "ML"), 1), (("AI", "data"), 1), (("ML", "models"), 1)] ∧
      G.nodes.length = 4 ∧ G.edges.length = 3 ∧
      ∀ cent, (analyze_network_metrics (some G) cent).map Metrics.components = some 1 ∧
        (analyze_network_metrics (some G) cent).map Metrics.density =
          some (DensityVal.val (1/2)) := by
  refine ⟨GA, coA, by decide, by decide, by decide, by decide, fun cent => ?_⟩
  have hlt : ¬ GA.nodes.length < 2 := by decide
  have hconn : isConnectedG GA = true := by decide
  have hden : densityQ GA = 1/2 := by norm_num [densityQ, GA, coA]
  cases hcent : cent GA <;>
    simp [analyze_network_metrics, hcent, hlt, hconn, hden]

/-- C3: `create_network_analysis` returns the explicit "no graph" value
whenever the keyword set has fewer than 2 entries, or the threshold-filtered
co-occurrence table is empty, or fewer than 2 nodes result after filtering;
and `analyze_network_metrics` on a "no graph" input returns the empty metrics
result. -/
theorem claim_C3 (text : String) (kws : Assoc String Int) (minCo : Nat)
    (cent : Graph → Except String CentData) :
    (kws.length < 2 → create_network_analysis text kws minCo = none) ∧
    (filteredTable text kws minCo = [] → create_network_analysis text kws minCo = none) ∧
    ((buildGraph (filteredTable text kws minCo) kws).nodes.length < 2 →
      create_network_analysis text kws minCo = none) ∧
    analyze_network_metrics none cent = none := by
  refine ⟨fun h => ?_, fun h => ?_, fun h => ?_, rfl⟩ <;>
    simp [create_network_analysis, h]

/-- Witness for C3: a single-keyword input, a two-keyword text in which the
keywords never share a sentence, and a duplicate-key keyword list whose only
surviving pair is degenerate, all yield the "no graph" result. -/
theorem claim_C3_witness :
    create_network_analysis "AI uses data" [("AI", 8)] 1 = none ∧
    create_network_analysis "AI. data" [("AI", 8), ("data", 5)] 1 = none ∧
    create_network_analysis "aa" [("a", 1), ("a", 2)] 1 = none :=
  ⟨(claim_C3 _ _ _ (fun _ => Except.error "e")).1 (by decide),
   (claim_C3 _ _ _ (fun _ => Except.error "e")).2.1 (by decide),
   (claim_C3 _ _ _ (fun _ => Except.error "e")).2.2.1 (by decide)⟩

/-- C10: whenever `create_network_analysis` succeeds, the returned
co-occurrence table is nonempty and is exactly the edge list of the returned
graph (same pairs, same weights), and the graph has at least 2 nodes; the
`Option` result models that the two components are returned together:
`(None, None)` or both present. -/
theorem claim_C10 (text : String) (kws : Assoc String Int) (minCo : Nat)
    (G : Graph) (co : Assoc Pair Nat)
    (hc : create_network_analysis text kws minCo = some (G, co)) :
    co ≠ [] ∧ G.edges = co ∧ 2 ≤ G.nodes.length := by
  unfold create_network_analysis at hc
  split_ifs at hc with h1 h2 h3
  have hc' := Option.some.inj hc
  have hG : buildGraph (filteredTable text kws minCo) kws = G := congrArg Prod.fst hc'
  have hco : filteredTable text kws minCo = co := congrArg Prod.snd hc'
  subst hG; subst hco
  refine ⟨fun h => h2 ?_, rfl, Nat.not_lt.mp h3⟩
  rw [h]; rfl

/-- Witness for C10 at the Scenario A input. -/
theorem claim_C10_witness :
    coA ≠ [] ∧ GA.edges = coA ∧ 2 ≤ GA.nodes.length :=
  claim_C10 textA kwA 1 GA coA (by decide)

/-- C9: if the centrality computation raises, `analyze_network_metrics`
still returns a metrics bundle in which the three most-central entries are
the "not computable" placeholder and the three top-5 dictionaries are empty,
while the node count, edge count, density and component count are exactly
the values already computed for the graph. -/
theorem claim_C9 (G : Graph) (cent : Graph → Except String CentData) (msg : String)
    (h2 : 2 ≤ G.nodes.length) (he : cent G = Except.error msg) :
    analyze_network_metrics (some G) cent =
      some { nodes := G.nodes.length, edges := G.edges.length
             density := if isConnectedG G then DensityVal.val (densityQ G)
                        else DensityVal.notConnected
             components := if isConnectedG G then 1 else ncomponents G
             most_connected := CentralNode.notComputable
             most_between := CentralNode.notComputable
             most_close := CentralNode.notComputable
             degree_top5 := [], betweenness_top5 := [], closeness_top5 := [] } := by
  have hlt : ¬ G.nodes.length < 2 := Nat.not_lt.mpr h2
  simp [analyze_network_metrics, he, hlt]

/-- Witness for C9: a disconnected four-node graph whose centrality call
raises; the base metrics (4 nodes, 2 edges, density not computable,
2 components) survive and the centrality entries are placeholders. -/
theorem claim_C9_witness :
    analyze_network_metrics
      (some { nodes := [("a", 1), ("b", 1), ("c", 1), ("d", 1)],
              edges := [(("a", "b"), 1), (("c", "d"), 1)] })
      (fun _ => Except.error "x") =
      some { nodes := 4, edges := 2
             density := DensityVal.notConnected, components := 2
             most_connected := CentralNode.notComputable
             most_between := CentralNode.notComputable
             most_close := CentralNode.notComputable
             degree_top5 := [], betweenness_top5 := [], closeness_top5 := [] } := by
  rw [claim_C9 _ _ "x" (by decide) rfl]
  decide

/-!
Splitter lemmas for claim C7.
-/

theorem splitAux_cons_false_term {c : Char} (h : isTerm c = true) (rest cur : List Char) :
    splitAux (c :: rest) cur false = cur.reverse :: splitAux rest [] true := by
  simp [splitAux, h]

theorem splitAux_cons_false_nonterm {c : Char} (h : isTerm c = false) (rest cur : List Char) :
    splitAux (c :: rest) cur false = splitAux rest (c :: cur) false := by
  simp [splitAux, h]

/-- Leaving the whitespace-skipping state is the same as restarting the scan
on the text with its leading whitespace removed. -/
theorem splitAux_skip_eq (cs : List Char) :
    splitAux cs [] true = splitAux (cs.dropWhile isPySpace) [] false := by
  induction cs with
  | nil => rfl
  | cons c rest ih =>
    by_cases hs : isPySpace c
    · simpa [splitAux, hs, List.dropWhile] using ih
    · by_cases ht : isTerm c
      · simp [splitAux, hs, ht, List.dropWhile]
      · simp [splitAux, hs, ht, List.dropWhile]

/-- Scanning terminator-free text only accumulates it into the current
fragment. -/
theorem splitAux_no_term (pre : List Char) :
    ∀ (cs cur : List Char), (∀ x ∈ pre, isTerm x = false) →
      splitAux (pre ++ cs) cur false = splitAux cs (pre.reverse ++ cur) false := by
  induction pre with
  | nil => intro cs cur _; rfl
  | cons x xs ih =>
    intro cs cur h
    have hx : isTerm x = false := h x (List.mem_cons_self _ _)
    rw [List.cons_append, splitAux_cons_false_nonterm hx,
      ih cs (x :: cur) fun y hy => h y (List.mem_cons_of_mem _ hy)]
    simp

/-- C7 counterexample: the source splits `"a..b"` into `["a", "", "b"]`
(one split per terminator, with an empty fragment between the consecutive
dots), not into the `["a", "b"]` that splitting on one-or-more terminators
would give. -/
theorem claim_C7_counterexample :
    splitSentences "a..b" ≠ splitSentencesSpec "a..b" := by decide

/-- C7 as amended: the sentence splitter splits at each single occurrence of
`.`, `!` or `?`, the occurrence consuming the whitespace immediately
following it (so consecutive terminators yield empty fragments); a text
containing no terminator yields a single fragment equal to the whole text. -/
theorem claim_C7_amended :
    (∀ text : String, (∀ c ∈ text.data, isTerm c = false) → splitSentences text = [text]) ∧
    (∀ (pre post : List Char) (c : Char), (∀ x ∈ pre, isTerm x = false) → isTerm c = true →
      splitAux (pre ++ c :: post) [] false =
        pre :: splitAux (post.dropWhile isPySpace) [] false) := by
  constructor
  · intro text h
    have h1 : splitAux (text.data ++ []) [] false = [text.data] := by
      rw [splitAux_no_term text.data [] [] h]; simp [splitAux]
    rw [List.append_nil] at h1
    cases text with
    | mk data => simp [splitSentences, h1]
  · intro pre post c hpre hc
    rw [splitAux_no_term pre (c :: post) [] hpre, splitAux_cons_false_term hc,
      splitAux_skip_eq]
    simp

/-- Witness for C7 as amended: the terminator-free text is returned whole,
and a concrete split at a single terminator with trailing whitespace. -/
theorem claim_C7_amended_witness :
    splitSentences "AI and ML" = ["AI and ML"] ∧
    splitAux ("AI".data ++ '.' :: " ML".data) [] false =
      "AI".data :: splitAux (" ML".data.dropWhile isPySpace) [] false :=
  ⟨claim_C7_amended.1 "AI and ML" (by decide),
   claim_C7_amended.2 "AI".data " ML".data '.' (by decide) (by decide)⟩

/-!
Parser lemmas for claim C8.
-/

/-- One loop iteration of `parse_gpt_response`, written as a single dict
update keyed by `itemKey` and weighted by `itemWeight`. -/
theorem parseItemStep_eq (d : Assoc String Int) (item₀ : List Char) :
    parseItemStep d item₀ =
      if pyStrip item₀ = [] then d
      else dictSet (itemKey (pyStrip item₀)) (itemWeight (pyStrip item₀)) d := by
  simp only [parseItemStep, itemKey, itemWeight]
  by_cases he : pyStrip item₀ = []
  · simp [he]
  · simp only [he, if_false]
    cases hr : rsplit1 (pyStrip item₀) with
    | none => rfl
    | some ps =>
      cases hint : pyIntOf (pyStrip ps.2) with
      | none => simp [hint]
      | some w =>
        by_cases hw : 1 ≤ w ∧ w ≤ 10
        · simp [hint, hw]
        · simp [hint, hw]

/-- C8 counterexample: on the item `"AI x"` the trailing token is not an
integer, and the source maps the *entire item* `"AI x"` to the default
weight 5 (`keywords_dict[item] = 5`, line 134), whereas the claim's rule maps
the keyword part `"AI"` to 5. -/
theorem claim_C8_counterexample :
    parse_gpt_response "AI x" ≠ parse_gpt_responseClaim "AI x" := by decide

/-- C8 as amended: `parse_gpt_response` splits the response on commas, strips
each item and skips empty ones, and performs one dict update per remaining
item: the key is the stripped prefix before the last space when the trailing
token parses as an integer, and the whole item otherwise (including when
there is no space); the weight is the trailing integer when it lies in
`[1,10]` and the default 5 otherwise.  The function is total: every response
yields a mapping. -/
theorem claim_C8_amended (response : String) :
    parse_gpt_response response =
      ((splitComma response.data).map pyStrip).foldl
        (fun d item => if item = [] then d
          else dictSet (itemKey item) (itemWeight item) d) [] := by
  unfold parse_gpt_response
  generalize splitComma response.data = items
  suffices h : ∀ d : Assoc String Int, items.foldl parseItemStep d =
      (items.map pyStrip).foldl
        (fun d item => if item = [] then d
          else dictSet (itemKey item) (itemWeight item) d) d from h []
  induction items with
  | nil => intro d; rfl
  | cons i rest ih =>
    intro d
    simp only [List.foldl_cons, List.map_cons, parseItemStep_eq]
    exact ih _

/-!
Graph-construction lemmas for claims C5 and C6.
-/

theorem mem_endpointsList {f : Assoc Pair Nat} {x : String} :
    x ∈ endpointsList f ↔ ∃ e, e ∈ f ∧ (e.1.1 = x ∨ e.1.2 = x) := by
  induction f with
  | nil => simp [endpointsList]
  | cons kv rest ih =>
    unfold endpointsList at ih ⊢
    simp only [List.foldr_cons, List.mem_cons]
    rw [ih]
    constructor
    · rintro (h | h | ⟨e, he, hx⟩)
      · exact ⟨kv, Or.inl rfl, Or.inl h.symm⟩
      · exact ⟨kv, Or.inl rfl, Or.inr h.symm⟩
      · exact ⟨e, Or.inr he, hx⟩
    · rintro ⟨e, (rfl | he), hx⟩
      · rcases hx with h | h
        · exact Or.inl h.symm
        · exact Or.inr (Or.inl h.symm)
      · exact Or.inr (Or.inr ⟨e, he, hx⟩)

theorem mem_dedupFirstAux : ∀ (l seen : List String) (x : String),
    x ∈ dedupFirstAux l seen ↔ x ∈ l ∧ x ∉ seen := by
  intro l
  induction l with
  | nil => intro seen x; simp [dedupFirstAux]
  | cons y ys ih =>
    intro seen x
    unfold dedupFirstAux
    by_cases hy : y ∈ seen
    · rw [if_pos hy, ih]
      simp only [List.mem_cons]
      constructor
      · rintro ⟨hx, hs⟩; exact ⟨Or.inr hx, hs⟩
      · rintro ⟨(rfl | hx), hs⟩
        · exact absurd hy hs
        · exact ⟨hx, hs⟩
    · rw [if_neg hy]
      simp only [List.mem_cons, ih, List.mem_cons, not_or]
      constructor
      · rintro (rfl | ⟨hx, hxy, hs⟩)
        · exact ⟨Or.inl rfl, hy⟩
        · exact ⟨Or.inr hx, hs⟩
      · rintro ⟨(rfl | hx), hs⟩
        · exact Or.inl rfl
        · by_cases hxy : x = y
          · exact Or.inl hxy
          · exact Or.inr ⟨hx, hxy, hs⟩

theorem mem_dedupFirst {l : List String} {x : String} : x ∈ dedupFirst l ↔ x ∈ l := by
  simp [dedupFirst, mem_dedupFirstAux]

theorem nodup_dedupFirstAux : ∀ (l seen : List String), (dedupFirstAux l seen).Nodup := by
  intro l
  induction l with
  | nil => intro seen; simp [dedupFirstAux]
  | cons y ys ih =>
    intro seen
    unfold dedupFirstAux
    by_cases hy : y ∈ seen
    · rw [if_pos hy]; exact ih seen
    · rw [if_neg hy]
      refine List.nodup_cons.mpr ⟨fun hmem => ?_, ih (y :: seen)⟩
      exact ((mem_dedupFirstAux ys (y :: seen) y).mp hmem).2 (List.mem_cons_self _ _)

theorem nodup_dedupFirst (l : List String) : (dedupFirst l).Nodup :=
  nodup_dedupFirstAux l []

theorem buildGraph_names (f : Assoc Pair Nat) (kws : Assoc String Int) :
    (buildGraph f kws).nodes.map Prod.fst = dedupFirst (endpointsList f) := by
  unfold buildGraph
  simp only [List.map_map]
  exact List.map_id _

theorem mem_filteredTable_le {text : String} {kws : Assoc String Int} {minCo : Nat}
    {e : Pair × Nat} (he : e ∈ filteredTable text kws minCo) : minCo ≤ e.2 := by
  unfold filteredTable at he
  simpa using (List.mem_filter.mp he).2

/-- C5: every graph returned by `create_network_analysis` has each edge's
endpoints among its nodes, no isolated node (every node has an incident
edge), and every edge weight at least the minimum co-occurrence threshold. -/
theorem claim_C5 (text : String) (kws : Assoc String Int) (minCo : Nat)
    (G : Graph) (co : Assoc Pair Nat)
    (hc : create_network_analysis text kws minCo = some (G, co)) :
    (∀ e ∈ G.edges, e.1.1 ∈ G.nodes.map Prod.fst ∧ e.1.2 ∈ G.nodes.map Prod.fst) ∧
    (∀ n ∈ G.nodes.map Prod.fst, ∃ e, e ∈ G.edges ∧ (e.1.1 = n ∨ e.1.2 = n)) ∧
    (∀ e ∈ G.edges, minCo ≤ e.2) := by
  unfold create_network_analysis at hc
  split_ifs at hc with h1 h2 h3
  have hc' := Option.some.inj hc
  have hG : buildGraph (filteredTable text kws minCo) kws = G := congrArg Prod.fst hc'
  subst hG
  refine ⟨fun e he => ?_, fun n hn => ?_, fun e he => mem_filteredTable_le he⟩
  · rw [buildGraph_names]
    exact ⟨mem_dedupFirst.mpr (mem_endpointsList.mpr ⟨e, he, Or.inl rfl⟩),
      mem_dedupFirst.mpr (mem_endpointsList.mpr ⟨e, he, Or.inr rfl⟩)⟩
  · rw [buildGraph_names] at hn
    exact mem_endpointsList.mp (mem_dedupFirst.mp hn)

/-- Witness for C5 at the Scenario A input. -/
theorem claim_C5_witness :
    (∀ e ∈ GA.edges, e.1.1 ∈ GA.nodes.map Prod.fst ∧ e.1.2 ∈ GA.nodes.map Prod.fst) ∧
    (∀ n ∈ GA.nodes.map Prod.fst, ∃ e, e ∈ GA.edges ∧ (e.1.1 = n ∨ e.1.2 = n)) ∧
    (∀ e ∈ GA.edges, 1 ≤ e.2) :=
  claim_C5 textA kwA 1 GA coA (by decide)

theorem two_le_length_of_two_mem {l : List String} {a b : String}
    (ha : a ∈ l) (hb : b ∈ l) (hne : a ≠ b) : 2 ≤ l.length := by
  cases l with
  | nil => simp at ha
  | cons x xs =>
    cases xs with
    | nil =>
      simp only [List.mem_singleton] at ha hb
      exact absurd (ha.trans hb.symm) hne
    | cons y ys => simp [Nat.succ_le_succ, Nat.le_add_left]

theorem exists_two_of_nodup {l : List String} (hn : l.Nodup) (hl : 2 ≤ l.length) :
    ∃ a b, a ∈ l ∧ b ∈ l ∧ a ≠ b := by
  match l with
  | [] => simp at hl
  | [x] => simp at hl
  | a :: b :: rest =>
    refine ⟨a, b, List.mem_cons_self _ _, List.mem_cons_of_mem _ (List.mem_cons_self _ _), ?_⟩
    intro hab
    exact (List.nodup_cons.mp hn).1 (hab ▸ List.mem_cons_self b rest)

theorem filteredTable_sublist (text : String) (kws : Assoc String Int) {t1 t2 : Nat}
    (h : t1 ≤ t2) :
    List.Sublist (filteredTable text kws t2) (filteredTable text kws t1) := by
  unfold filteredTable
  refine List.monotone_filter_right _ fun kv hkv => ?_
  simp only [decide_eq_true_eq] at hkv ⊢
  exact le_trans h hkv

/-- C6: raising the minimum co-occurrence threshold never increases the edge
count of the produced graph (a "no graph" result counting as zero edges). -/
theorem claim_C6 (text : String) (kws : Assoc String Int) (t1 t2 : Nat) (h : t1 ≤ t2) :
    edgeCount (create_network_analysis text kws t2) ≤
      edgeCount (create_network_analysis text kws t1) := by
  have hsub := filteredTable_sublist text kws h
  unfold create_network_analysis
  by_cases h1 : kws.length < 2
  · simp [h1, edgeCount]
  · by_cases h2 : (filteredTable text kws t2).isEmpty = true
    · simp [h1, h2, edgeCount]
    · by_cases h3 : (buildGraph (filteredTable text kws t2) kws).nodes.length < 2
      · simp [h1, h2, h3, edgeCount]
      · have hn2 : 2 ≤ (dedupFirst (endpointsList (filteredTable text kws t2))).length := by
          have hx := Nat.not_lt.mp h3
          rwa [show (buildGraph (filteredTable text kws t2) kws).nodes.length =
            (dedupFirst (endpointsList (filteredTable text kws t2))).length from by
              simp [buildGraph]] at hx
        obtain ⟨a, b, ha, hb, hne⟩ :=
          exists_two_of_nodup (nodup_dedupFirst _) hn2
        have transfer : ∀ x, x ∈ dedupFirst (endpointsList (filteredTable text kws t2)) →
            x ∈ dedupFirst (endpointsList (filteredTable text kws t1)) := by
          intro x hx
          obtain ⟨e, he, hex⟩ := mem_endpointsList.mp (mem_dedupFirst.mp hx)
          exact mem_dedupFirst.mpr (mem_endpointsList.mpr ⟨e, hsub.subset he, hex⟩)
        have hn1 : 2 ≤ (buildGraph (filteredTable text kws t1) kws).nodes.length := by
          rw [show (buildGraph (filteredTable text kws t1) kws).nodes.length =
            (dedupFirst (endpointsList (filteredTable text kws t1))).length from by
              simp [buildGraph]]
          exact two_le_length_of_two_mem (transfer a ha) (transfer b hb) hne
        have h2' : ¬ (filteredTable text kws t1).isEmpty = true := by
          intro hemp
          rcases hf : filteredTable text kws t2 with _ | ⟨kv, rest⟩
          · rw [hf] at h2; exact h2 rfl
          · have : kv ∈ filteredTable text kws t1 :=
              hsub.subset (hf ▸ List.mem_cons_self kv rest)
            rw [List.isEmpty_iff.mp hemp] at this
            simp at this
        have h3' : ¬ (buildGraph (filteredTable text kws t1) kws).nodes.length < 2 :=
          Nat.not_lt.mpr hn1
        simp only [if_neg h1, if_neg h2, if_neg h3, if_neg h2', if_neg h3']
        simpa [edgeCount, buildGraph] using hsub.length_le

/-- Witness for C6: on the Scenario A input, threshold 2 produces no graph
(0 edges) while threshold 1 produces 3 edges. -/
theorem claim_C6_witness :
    edgeCount (create_network_analysis textA kwA 2) ≤
      edgeCount (create_network_analysis textA kwA 1) :=
  claim_C6 textA kwA 1 2 (by decide)

/-!
Order lemmas for the pair canonicalization (claims C2 and C4).
-/

theorem ltCharList_irrefl : ∀ l : List Char, ltCharList l l = false := by
  intro l
  induction l with
  | nil => rfl
  | cons c cs ih =>
    simp only [ltCharList]
    rw [if_neg (lt_irrefl c), if_neg (lt_irrefl c)]
    exact ih

theorem ltCharList_asymm : ∀ {a b : List Char},
    ltCharList a b = true → ltCharList b a = false := by
  intro a
  induction a with
  | nil =>
    intro b h
    cases b with
    | nil => rfl
    | cons c cs => rfl
  | cons x xs ih =>
    intro b h
    cases b with
    | nil => exact absurd h (by simp [ltCharList])
    | cons y ys =>
      simp only [ltCharList] at h ⊢
      by_cases hxy : x < y
      · rw [if_neg (asymm hxy), if_pos hxy]
      · by_cases hyx : y < x
        · rw [if_neg hxy, if_pos hyx] at h
          exact absurd h (by simp)
        · rw [if_neg hxy, if_neg hyx] at h
          rw [if_neg hyx, if_neg hxy]
          exact ih h

theorem ltCharList_conn : ∀ {a b : List Char},
    ltCharList a b = false → ltCharList b a = false → a = b := by
  intro a
  induction a with
  | nil =>
    intro b h1 _
    cases b with
    | nil => rfl
    | cons c cs => exact absurd h1 (by simp [ltCharList])
  | cons x xs ih =>
    intro b h1 h2
    cases b with
    | nil => exact absurd h2 (by simp [ltCharList])
    | cons y ys =>
      simp only [ltCharList] at h1 h2
      by_cases hxy : x < y
      · rw [if_pos hxy] at h1; exact absurd h1 (by simp)
      · by_cases hyx : y < x
        · rw [if_pos hyx] at h2; exact absurd h2 (by simp)
        · rw [if_neg hxy, if_neg hyx] at h1
          have hx : x = y := le_antisymm (not_lt.mp hyx) (not_lt.mp hxy)
          rw [if_neg hyx, if_neg hxy] at h2
          rw [hx, ih h1 h2]

theorem ltStr_irrefl (a : String) : ltStr a a = false :=
  ltCharList_irrefl _

theorem ltStr_asymm {a b : String} (h : ltStr a b = true) : ltStr b a = false :=
  ltCharList_asymm h

theorem ltStr_conn {a b : String} (h1 : ltStr a b = false) (h2 : ltStr b a = false) :
    a = b := by
  have hd := ltCharList_conn h1 h2
  cases a; cases b
  exact congrArg String.mk hd

theorem sortPair_cases (a b : String) : sortPair a b = (a, b) ∨ sortPair a b = (b, a) := by
  unfold sortPair
  by_cases h : ltStr b a = true
  · rw [if_pos h]; exact Or.inr rfl
  · rw [if_neg h]; exact Or.inl rfl

theorem sortPair_lt {a b : String} (h : a ≠ b) :
    ltStr (sortPair a b).1 (sortPair a b).2 = true := by
  unfold sortPair
  by_cases hba : ltStr b a = true
  · rw [if_pos hba]; exact hba
  · rw [if_neg hba]
    have hba' : ltStr b a = false := Bool.not_eq_true _ ▸ Bool.eq_false_iff.mpr hba
    cases hab : ltStr a b with
    | false => exact absurd (ltStr_conn hab hba') h
    | true => rfl

theorem sortPair_symm (a b : String) : sortPair a b = sortPair b a := by
  unfold sortPair
  by_cases h1 : ltStr b a = true
  · rw [if_pos h1, if_neg (by rw [ltStr_asymm h1]; exact Bool.false_ne_true)]
  · by_cases h2 : ltStr a b = true
    · rw [if_neg h1, if_pos h2]
    · have h1' : ltStr b a = false := Bool.eq_false_iff.mpr h1
      have h2' : ltStr a b = false := Bool.eq_false_iff.mpr h2
      rw [ltStr_conn h2' h1']

theorem sortPair_left_inj {x a b : String} (h : sortPair x a = sortPair x b) : a = b := by
  rcases sortPair_cases x a with h1 | h1 <;> rcases sortPair_cases x b with h2 | h2 <;>
    rw [h1, h2] at h
  · injection h with e1 e2
  · injection h with e1 e2; exact e2.trans e1
  · injection h with e1 e2; exact e1.trans e2
  · injection h with e1 e2

/-!
Combination lemmas (claims C2 and C4).
-/

theorem combos2_mem : ∀ {l : List α} {p : α × α}, p ∈ combos2 l → p.1 ∈ l ∧ p.2 ∈ l := by
  intro l
  induction l with
  | nil => intro p h; simp [combos2] at h
  | cons x xs ih =>
    intro p h
    simp only [combos2, List.mem_append, List.mem_map] at h
    rcases h with ⟨y, hy, rfl⟩ | h
    · exact ⟨List.mem_cons_self _ _, List.mem_cons_of_mem _ hy⟩
    · obtain ⟨h1, h2⟩ := ih h
      exact ⟨List.mem_cons_of_mem _ h1, List.mem_cons_of_mem _ h2⟩

theorem combos2_ne : ∀ {l : List α}, l.Nodup → ∀ {p : α × α}, p ∈ combos2 l → p.1 ≠ p.2 := by
  intro l
  induction l with
  | nil => intro _ p h; simp [combos2] at h
  | cons x xs ih =>
    intro hnd p h
    simp only [combos2, List.mem_append, List.mem_map] at h
    rcases h with ⟨y, hy, rfl⟩ | h
    · intro hxy
      have hxy' : x = y := hxy
      exact (List.nodup_cons.mp hnd).1 (hxy' ▸ hy)
    · exact ih (List.nodup_cons.mp hnd).2 h

theorem combos2_length (l : List α) : (combos2 l).length = Nat.choose l.length 2 := by
  induction l with
  | nil => rfl
  | cons x xs ih =>
    simp only [combos2, List.length_append, List.length_map, ih, List.length_cons]
    rw [Nat.choose_succ_succ xs.length 1, Nat.choose_one_right]

theorem combos2_cover : ∀ {l : List α} {a b : α}, a ∈ l → b ∈ l → a ≠ b →
    (a, b) ∈ combos2 l ∨ (b, a) ∈ combos2 l := by
  intro l
  induction l with
  | nil => intro a b ha; simp at ha
  | cons x xs ih =>
    intro a b ha hb hne
    simp only [combos2, List.mem_append, List.mem_map]
    rcases List.mem_cons.mp ha with rfl | ha'
    · have hb' : b ∈ xs := by
        rcases List.mem_cons.mp hb with rfl | h
        · exact absurd rfl hne
        · exact h
      exact Or.inl (Or.inl ⟨b, hb', rfl⟩)
    · rcases List.mem_cons.mp hb with rfl | hb'
      · exact Or.inr (Or.inl ⟨a, ha', rfl⟩)
      · rcases ih ha' hb' hne with h | h
        · exact Or.inl (Or.inr h)
        · exact Or.inr (Or.inr h)

theorem combos2_sortPair_nodup : ∀ {l : List String}, l.Nodup →
    ((combos2 l).map fun p => sortPair p.1 p.2).Nodup := by
  intro l
  induction l with
  | nil => intro _; simp [combos2]
  | cons x xs ih =>
    intro hnd
    obtain ⟨hx, hxs⟩ := List.nodup_cons.mp hnd
    simp only [combos2, List.map_append, List.map_map]
    refine List.Nodup.append (List.Nodup.map ?_ hxs) (ih hxs) ?_
    · intro a b hab
      exact sortPair_left_inj hab
    · intro z hz1 hz2
      simp only [List.mem_map, Function.comp] at hz1 hz2
      obtain ⟨y, hy, hzy⟩ := hz1
      obtain ⟨p, hp, hzp⟩ := hz2
      have heq : sortPair x y = sortPair p.1 p.2 := hzy.trans hzp.symm
      have hxin : x ∈ xs := by
        have hm := combos2_mem hp
        rcases sortPair_cases x y with h1 | h1 <;> rcases sortPair_cases p.1 p.2 with h2 | h2 <;>
          rw [h1, h2] at heq
        · injection heq with e1 e2; exact e1 ▸ hm.1
        · injection heq with e1 e2; exact e1 ▸ hm.2
        · injection heq with e1 e2; exact e2 ▸ hm.2
        · injection heq with e1 e2; exact e2 ▸ hm.1
      exact hx hxin

/-!
Keys of the accumulated co-occurrence counter (claim C4).
-/

theorem mem_keys_incr {k : Pair} : ∀ {c : Assoc Pair Nat} {p : Pair},
    p ∈ (incr k c).map Prod.fst → p = k ∨ p ∈ c.map Prod.fst := by
  intro c
  induction c with
  | nil =>
    intro p hp
    simp only [incr, List.map_cons, List.map_nil, List.mem_singleton] at hp
    exact Or.inl hp
  | cons kv rest ih =>
    obtain ⟨k₀, v⟩ := kv
    intro p hp
    simp only [incr] at hp
    by_cases hk : k₀ = k
    · rw [if_pos hk] at hp
      simp only [List.map_cons, List.mem_cons] at hp
      rcases hp with rfl | hp
      · exact Or.inl hk
      · exact Or.inr (List.mem_cons_of_mem _ hp)
    · rw [if_neg hk] at hp
      simp only [List.map_cons, List.mem_cons] at hp
      rcases hp with rfl | hp
      · exact Or.inr (List.mem_cons_self _ _)
      · rcases ih hp with h | h
        · exact Or.inl h
        · exact Or.inr (List.mem_cons_of_mem _ h)

theorem keys_foldl_incr {P : Pair → Prop} :
    ∀ (l : List (String × String)) (c : Assoc Pair Nat),
      (∀ p ∈ c.map Prod.fst, P p) → (∀ q ∈ l, P (sortPair q.1 q.2)) →
      ∀ p ∈ (l.foldl (fun c q => incr (sortPair q.1 q.2) c) c).map Prod.fst, P p := by
  intro l
  induction l with
  | nil => intro c hc _ p hp; exact hc p hp
  | cons q rest ih =>
    intro c hc hl p hp
    simp only [List.foldl_cons] at hp
    refine ih _ ?_ (fun r hr => hl r (List.mem_cons_of_mem _ hr)) p hp
    intro r hr
    rcases mem_keys_incr hr with rfl | hr'
    · exact hl q (List.mem_cons_self _ _)
    · exact hc r hr'

theorem keys_cooccurrence {kwList : List String} (hnd : kwList.Nodup) {text : String} {p : Pair}
    (hp : p ∈ (cooccurrence text kwList).map Prod.fst) :
    ∃ a b, a ∈ kwList ∧ b ∈ kwList ∧ a ≠ b ∧ p = sortPair a b := by
  unfold cooccurrence at hp
  suffices h : ∀ (ss : List String) (c : Assoc Pair Nat),
      (∀ p ∈ c.map Prod.fst, ∃ a b, a ∈ kwList ∧ b ∈ kwList ∧ a ≠ b ∧ p = sortPair a b) →
      ∀ p ∈ (ss.foldl (sentenceStep kwList) c).map Prod.fst,
        ∃ a b, a ∈ kwList ∧ b ∈ kwList ∧ a ≠ b ∧ p = sortPair a b by
    exact h _ [] (by simp) p hp
  intro ss
  induction ss with
  | nil => intro c hc p hp; exact hc p hp
  | cons s rest ih =>
    intro c hc p hp
    simp only [List.foldl_cons] at hp
    refine ih _ ?_ p hp
    intro r hr
    refine keys_foldl_incr _ _ hc ?_ r hr
    intro q hq
    have hmem := combos2_mem hq
    have hne := combos2_ne (hnd.filter _) hq
    exact ⟨q.1, q.2, List.mem_of_mem_filter hmem.1, List.mem_of_mem_filter hmem.2, hne, rfl⟩

/-- C4: every key of the co-occurrence table returned by
`create_network_analysis` is a canonically sorted pair of two distinct
keywords of the input mapping, and the table never contains both orderings of
the same pair. -/
theorem claim_C4 (text : String) (kws : Assoc String Int) (minCo : Nat)
    (G : Graph) (co : Assoc Pair Nat)
    (hnd : (kws.map Prod.fst).Nodup)
    (hc : create_network_analysis text kws minCo = some (G, co)) :
    (∀ p ∈ co.map Prod.fst, ltStr p.1 p.2 = true ∧ p.1 ≠ p.2 ∧
      p.1 ∈ kws.map Prod.fst ∧ p.2 ∈ kws.map Prod.fst) ∧
    (∀ a b : String, (a, b) ∈ co.map Prod.fst → (b, a) ∉ co.map Prod.fst) := by
  unfold create_network_analysis at hc
  split_ifs at hc with h1 h2 h3
  have hco : filteredTable text kws minCo = co := congrArg Prod.snd (Option.some.inj hc)
  subst hco
  have key : ∀ p ∈ (filteredTable text kws minCo).map Prod.fst,
      ltStr p.1 p.2 = true ∧ p.1 ≠ p.2 ∧
        p.1 ∈ kws.map Prod.fst ∧ p.2 ∈ kws.map Prod.fst := by
    intro p hp
    have hp' : p ∈ (cooccurrence text (kws.map Prod.fst)).map Prod.fst := by
      obtain ⟨kv, hkv, rfl⟩ := List.mem_map.mp hp
      exact List.mem_map.mpr ⟨kv, List.mem_of_mem_filter hkv, rfl⟩
    obtain ⟨a, b, ha, hb, hne, rfl⟩ := keys_cooccurrence hnd hp'
    have hlt := sortPair_lt hne
    refine ⟨hlt, fun h12 => ?_, ?_, ?_⟩
    · rw [h12, ltStr_irrefl] at hlt
      exact Bool.noConfusion hlt
    · rcases sortPair_cases a b with h | h <;> rw [h]
      · exact ha
      · exact hb
    · rcases sortPair_cases a b with h | h <;> rw [h]
      · exact hb
      · exact ha
  refine ⟨key, fun a b hab hba => ?_⟩
  have hltab := (key _ hab).1
  have hltba := (key _ hba).1
  rw [ltStr_asymm hltab] at hltba
  exact Bool.noConfusion hltba

/-- Witness for C4 at the Scenario A input. -/
theorem claim_C4_witness :
    (∀ p ∈ coA.map Prod.fst, ltStr p.1 p.2 = true ∧ p.1 ≠ p.2 ∧
      p.1 ∈ kwA.map Prod.fst ∧ p.2 ∈ kwA.map Prod.fst) ∧
    (∀ a b : String, (a, b) ∈ coA.map Prod.fst → (b, a) ∉ coA.map Prod.fst) :=
  claim_C4 textA kwA 1 GA coA (by decide) (by decide)

/-!
Substring correctness and per-sentence counting (claim C2).
-/

theorem isPrefixL_iff : ∀ (n h : List Char), isPrefixL n h = true ↔ ∃ t, h = n ++ t := by
  intro n
  induction n with
  | nil => intro h; simp [isPrefixL]
  | cons a as ih =>
    intro h
    cases h with
    | nil =>
      simp only [isPrefixL, List.cons_append]
      constructor
      · intro hh; exact Bool.noConfusion hh
      · rintro ⟨t, ht⟩; exact List.noConfusion ht
    | cons b bs =>
      simp only [isPrefixL, Bool.and_eq_true, decide_eq_true_eq, ih, List.cons_append]
      constructor
      · rintro ⟨rfl, t, rfl⟩; exact ⟨t, rfl⟩
      · rintro ⟨t, ht⟩
        injection ht with h1 h2
        exact ⟨h1.symm, t, h2⟩

theorem isSubstr_iff : ∀ (h n : List Char),
    isSubstr n h = true ↔ ∃ pre post, h = pre ++ n ++ post := by
  intro h
  induction h with
  | nil =>
    intro n
    cases n with
    | nil => exact ⟨fun _ => ⟨[], [], rfl⟩, fun _ => rfl⟩
    | cons c cs =>
      simp only [isSubstr, isPrefixL]
      constructor
      · intro hh; exact Bool.noConfusion hh
      · rintro ⟨pre, post, hh⟩
        have hlen := congrArg List.length hh
        simp only [List.length_nil, List.length_append, List.length_cons] at hlen
        exact absurd hlen (by omega)
  | cons c t ih =>
    intro n
    simp only [isSubstr, Bool.or_eq_true, isPrefixL_iff, ih]
    constructor
    · rintro (⟨t', ht'⟩ | ⟨pre, post, rfl⟩)
      · exact ⟨[], t', by simpa using ht'⟩
      · exact ⟨c :: pre, post, rfl⟩
    · rintro ⟨pre, post, hh⟩
      cases pre with
      | nil => exact Or.inl ⟨post, by simpa using hh⟩
      | cons d pre' =>
        injection hh with h1 h2
        exact Or.inr ⟨pre', post, h2⟩

/-- C2: the keywords found in a sentence are exactly the listed keywords that
occur as a literal substring anywhere in it; a sentence with exactly n
distinct found keywords contributes `C(n,2)` pair increments, one per
unordered pair of distinct found keywords (the canonicalized increment
targets are pairwise distinct and cover every such pair). -/
theorem claim_C2 (kws : List String) (s : String) (hnd : kws.Nodup) :
    (∀ k, k ∈ foundKeywords kws s ↔
      k ∈ kws ∧ ∃ pre post, s.data = pre ++ k.data ++ post) ∧
    (foundKeywords kws s).Nodup ∧
    (sentencePairs kws s).length = Nat.choose (foundKeywords kws s).length 2 ∧
    ((sentencePairs kws s).map fun p => sortPair p.1 p.2).Nodup ∧
    (∀ a b, a ∈ foundKeywords kws s → b ∈ foundKeywords kws s → a ≠ b →
      sortPair a b ∈ (sentencePairs kws s).map fun p => sortPair p.1 p.2) := by
  refine ⟨fun k => ?_, hnd.filter _, combos2_length _,
    combos2_sortPair_nodup (hnd.filter _), fun a b ha hb hne => ?_⟩
  · unfold foundKeywords
    rw [List.mem_filter, isSubstr_iff]
  · rcases combos2_cover ha hb hne with h | h
    · exact List.mem_map.mpr ⟨(a, b), h, rfl⟩
    · exact List.mem_map.mpr ⟨(b, a), h, (sortPair_symm a b).symm⟩

/-- Witness for C2 on the first Scenario A sentence with keywords AI and ML. -/
theorem claim_C2_witness :
    (∀ k, k ∈ foundKeywords ["AI", "ML"] "AI and ML are fields" ↔
      k ∈ ["AI", "ML"] ∧
        ∃ pre post, ("AI and ML are fields").data = pre ++ k.data ++ post) ∧
    (foundKeywords ["AI", "ML"] "AI and ML are fields").Nodup ∧
    (sentencePairs ["AI", "ML"] "AI and ML are fields").length =
      Nat.choose (foundKeywords ["AI", "ML"] "AI and ML are fields").length 2 ∧
    ((sentencePairs ["AI", "ML"] "AI and ML are fields").map
      fun p => sortPair p.1 p.2).Nodup ∧
    (∀ a b, a ∈ foundKeywords ["AI", "ML"] "AI and ML are fields" →
      b ∈ foundKeywords ["AI", "ML"] "AI and ML are fields" → a ≠ b →
      sortPair a b ∈ (sentencePairs ["AI", "ML"] "AI and ML are fields").map
        fun p => sortPair p.1 p.2) :=
  claim_C2 ["AI", "ML"] "AI and ML are fields" (by decide)
